import Mathlib

/-!
# Epics binding of the GitLab client: `ListGroupEpics`

A shallow embedding of `epics.go`.

* Go strings are byte sequences (`GoString`).
* `url.QueryEscape` (Go standard library, `net/url`) is embedded from its source:
  `shouldEscape` in mode `encodeQueryComponent` and the three branches of `escape`.
* The shared client (`s.client`) is a parameter: its two operations `NewRequest` and `Do`
  are arbitrary functions over an explicit world state.  Every call the accessor makes is
  recorded in a trace so that "is not invoked" can be stated.
* The `json` and `url` struct tags are tables; `encoding/json` is embedded as far as it
  decides which field a member of a JSON object is stored in and how a pointer field with
  custom `UnmarshalJSON`/`MarshalJSON` methods is read and written.
-/

namespace Gitlab

/-! ## Strings -/

/-- A Go `byte`. -/
abbrev Byte := Fin 256

/-- A Go `string`: an immutable sequence of bytes. -/
abbrev GoString := List Byte

/-- The byte of an ASCII character. -/
def ascii (c : Char) : Byte := Fin.ofNat c.toNat

/-- A Go string literal (ASCII only). -/
def lit (s : String) : GoString := s.toList.map ascii

/-! ## `strconv.Itoa` -/

/-- The function `strconv.Itoa`: the decimal rendering of an `int`, with a leading `-` for a
negative value. -/
def Itoa (v : Int) : GoString := lit (toString v)

/-! ## `net/url`: `QueryEscape` -/

/-- The table `upperhex` of `net/url`, indexed by a nibble. -/
def upperhex (n : Nat) : Byte :=
  if n < 10 then Fin.ofNat (48 + n) else Fin.ofNat (55 + n)

/-- The unreserved characters of RFC 3986 section 2.3: ASCII letters, digits and the marks
`-`, `_`, `.`, `~`. -/
def isUnreserved (c : Byte) : Bool :=
  (97 ≤ c.val && c.val ≤ 122) || (65 ≤ c.val && c.val ≤ 90) || (48 ≤ c.val && c.val ≤ 57)
    || c.val == 45 || c.val == 95 || c.val == 46 || c.val == 126

/-- The function `shouldEscape(c, encodeQueryComponent)` of `net/url`: alphanumerics and the
marks `-`, `_`, `.`, `~` are kept; the reserved characters are all escaped in a query
component; everything else is escaped. -/
def shouldEscape (c : Byte) : Bool :=
  if (97 ≤ c.val && c.val ≤ 122) || (65 ≤ c.val && c.val ≤ 90) || (48 ≤ c.val && c.val ≤ 57) then
    false
  else if c.val == 45 || c.val == 95 || c.val == 46 || c.val == 126 then
    false
  else
    true

/-- The first loop of `escape`: the number of spaces that need escaping. -/
def spaceCount (s : GoString) : Nat :=
  (s.filter (fun c => shouldEscape c && c.val == 32)).length

/-- The first loop of `escape`: the number of bytes that need a `%HH` escape. -/
def hexCount (s : GoString) : Nat :=
  (s.filter (fun c => shouldEscape c && !(c.val == 32))).length

/-- The last loop of `escape` in mode `encodeQueryComponent`: a space becomes `+`, a byte that
should be escaped becomes `%` followed by its two upper-case hex digits, any other byte is
copied. -/
def escapeLoop : GoString → GoString
  | [] => []
  | c :: rest =>
    if c.val == 32 then ascii '+' :: escapeLoop rest
    else if shouldEscape c then
      ascii '%' :: upperhex (c.val / 16) :: upperhex (c.val % 16) :: escapeLoop rest
    else c :: escapeLoop rest

/-- The function `escape(s, encodeQueryComponent)` of `net/url`: the string itself when nothing
needs escaping, spaces replaced by `+` when no byte needs a hex escape, the general loop
otherwise. -/
def escape (s : GoString) : GoString :=
  if spaceCount s == 0 && hexCount s == 0 then s
  else if hexCount s == 0 then s.map (fun c => if c.val == 32 then ascii '+' else c)
  else escapeLoop s

/-- The function `url.QueryEscape`. -/
def QueryEscape (s : GoString) : GoString := escape s

/-- Percent-encoding as the specification words it: every byte outside the unreserved set is
replaced by its `%HH` escape, every unreserved byte is kept. -/
def pctEncode : GoString → GoString
  | [] => []
  | c :: rest =>
    if isUnreserved c then c :: pctEncode rest
    else ascii '%' :: upperhex (c.val / 16) :: upperhex (c.val % 16) :: pctEncode rest

/-! ## Identifiers -/

/-- The dynamic value passed as `pid interface{}`: an `int` (any integer; the range of the
machine type plays no role), a `string`, or a value of any other dynamic type (described by
its Go-syntax rendering). -/
inductive ID where
  | int (v : Int)
  | string (s : GoString)
  | other (repr : GoString)
deriving DecidableEq

/-- An `error` value: the identifier-resolution error, or an error value `e` produced by
the transport. -/
inductive Error (E : Type) where
  | InvalidIdentifier (pid : ID)
  | transport (e : E)
deriving DecidableEq

/-- Modelled from the spec: the helper `parseID` is not in `epics.go`.  It resolves the parent
identifier to its canonical string form: the decimal rendering of a numeric identifier, the
string itself for a string; any other shape fails with an `InvalidIdentifier` error. -/
def parseID {E : Type} : ID → Except (Error E) GoString
  | .int v => .ok (Itoa v)
  | .string s => .ok s
  | .other r => .error (.InvalidIdentifier (.other r))

/-! ## Records -/

/-- The struct `EpicAuthor`. -/
structure EpicAuthor where
  ID : Int
  State : GoString
  WebURL : GoString
  Name : GoString
  AvatarURL : GoString
  Username : GoString
deriving DecidableEq

/-- The struct `Epic`.  A pointer field is an `Option` (`none` is the nil pointer), the slice
`Labels` is an `Option` of a list (`none` is the nil slice).  `ISOTime` and `Time` stand for
the types `ISOTime` and `time.Time`, which are declared outside `epics.go`. -/
structure Epic (ISOTime Time : Type) where
  ID : Int
  IID : Int
  GroupID : Int
  Title : GoString
  Description : GoString
  Author : Option EpicAuthor
  StartDate : Option ISOTime
  StartDateIsFixed : Bool
  StartDateFixed : GoString
  StartDateFromMilestone : GoString
  EndDate : Option ISOTime
  DueDate : Option ISOTime
  DueDateIsFixed : Bool
  DueDateFixed : GoString
  DueDateFromMilestone : GoString
  UpdatedAt : Option Time
  CreatedAt : Option Time
  Labels : Option (List GoString)
deriving DecidableEq

/-! ## Options -/

/-- Modelled from the spec: the embedded struct `ListOptions` is declared outside `epics.go`;
it holds the generic pagination fields, page number and page size. -/
structure ListOptions where
  Page : Int
  PerPage : Int
deriving DecidableEq

/-- The struct `ListGroupEpicsOptions`.  `Labels` is the slice type `Labels`; the `*string`
fields are `Option`s (`none` is the nil pointer); the field `Sort` is written `Sort_`. -/
structure ListGroupEpicsOptions where
  toListOptions : ListOptions
  Id : Int
  AuthorId : Int
  Labels : List GoString
  OrderBy : Option GoString
  Sort_ : Option GoString
  Search : Option GoString
  State : Option GoString
deriving DecidableEq

/-! ## The shared client -/

/-- A Go slice value: `none` is the nil slice, `some l` a non-nil slice holding `l`. -/
abbrev Slice (α : Type) := Option (List α)

/-- The shared transport `s.client`, a collaborator that is not part of `epics.go`: its two
operations are arbitrary functions of an explicit world state.  `NewRequest` returns the
request and the error; `Do` receives the request and the current value of the destination
`&i`, and returns the value it leaves in the destination, the response envelope and the
error. -/
structure Client (Req Resp OptFn E World Rec : Type) where
  NewRequest : World → GoString → GoString → Option ListGroupEpicsOptions → List OptFn →
    World × Req × Option (Error E)
  Do : World → Req → Slice Rec → World × Slice Rec × Option Resp × Option (Error E)

/-- One invocation of a transport operation, with the arguments it was given. -/
inductive Call (Req OptFn : Type) where
  | NewRequest (method path : GoString) (opt : Option ListGroupEpicsOptions)
      (options : List OptFn)
  | Do (req : Req)
deriving DecidableEq

/-- What a call of `ListGroupEpics` returns (`epics`, `resp`, `err`), together with the
transport operations it invoked, in order, and the world state it leaves. -/
structure Outcome (Req Resp OptFn E World Rec : Type) where
  epics : Slice Rec
  resp : Option Resp
  err : Option (Error E)
  calls : List (Call Req OptFn)
  world : World

/-- The method `EpicsService.ListGroupEpics`. -/
def ListGroupEpics {Req Resp OptFn E World ISOTime Time : Type}
    (client : Client Req Resp OptFn E World (Option (Epic ISOTime Time))) (w : World)
    (pid : ID) (opt : Option ListGroupEpicsOptions) (options : List OptFn) :
    Outcome Req Resp OptFn E World (Option (Epic ISOTime Time)) :=
  match parseID pid with
  | .error err => ⟨none, none, some err, [], w⟩
  | .ok group =>
    let u := lit "groups/" ++ QueryEscape group ++ lit "/epics"
    match client.NewRequest w (lit "GET") u opt options with
    | (w1, _, some err) => ⟨none, none, some err, [.NewRequest (lit "GET") u opt options], w1⟩
    | (w1, req, none) =>
      match client.Do w1 req none with
      | (w2, _, resp, some err) =>
        ⟨none, resp, some err, [.NewRequest (lit "GET") u opt options, .Do req], w2⟩
      | (w2, i, resp, none) =>
        ⟨i, resp, none, [.NewRequest (lit "GET") u opt options, .Do req], w2⟩

/-! ## Query parameters of the options value

The serializer of the options value lives in the shared transport (`NewRequest`), which is
not part of `epics.go`.  The `url` tags below are those of the source; the serializer that
reads them is modelled from the specification. -/

/-- A `url` struct tag: the key, and whether the options `comma` and `omitempty` are set. -/
structure UrlTag where
  key : GoString
  comma : Bool
  omitempty : Bool
deriving DecidableEq

/-- The value of a field of the options struct. -/
inductive FieldValue where
  | int (v : Int)
  | strings (l : List GoString)
  | strPtr (p : Option GoString)
deriving DecidableEq

/-- The fields of `ListGroupEpicsOptions` with their `url` tags, in declaration order, the
embedded `ListOptions` first (pagination parameters `page` and `per_page`). -/
def ListGroupEpicsOptions.urlFields (o : ListGroupEpicsOptions) : List (UrlTag × FieldValue) :=
  [ (⟨lit "page", false, true⟩, .int o.toListOptions.Page),
    (⟨lit "per_page", false, true⟩, .int o.toListOptions.PerPage),
    (⟨lit "id", false, true⟩, .int o.Id),
    (⟨lit "author_id", false, true⟩, .int o.AuthorId),
    (⟨lit "labels", true, true⟩, .strings o.Labels),
    (⟨lit "order_by", false, true⟩, .strPtr o.OrderBy),
    (⟨lit "sort", false, true⟩, .strPtr o.Sort_),
    (⟨lit "search", false, true⟩, .strPtr o.Search),
    (⟨lit "state", false, true⟩, .strPtr o.State) ]

/-- Whether a field is at its zero/absent value: the integer `0`, an empty list, a nil
pointer. -/
def FieldValue.isZero : FieldValue → Bool
  | .int v => v == 0
  | .strings l => l.isEmpty
  | .strPtr p => p.isNone

/-- The strings of a list joined by a separator. -/
def joinWith (sep : GoString) : List GoString → GoString
  | [] => []
  | [x] => x
  | x :: y :: rest => x ++ sep ++ joinWith sep (y :: rest)

/-- Modelled from the spec: the query serializer is not part of `epics.go`.  A field left at
its zero/absent value is omitted; a list-valued filter tagged `comma` is one pair whose value
is the elements joined by `,`; an integer is its decimal rendering, a string is itself.
(A list without `comma` gives one pair per element.) -/
def encodeField (t : UrlTag) (v : FieldValue) : List (GoString × GoString) :=
  if t.omitempty && v.isZero then []
  else
    match v with
    | .int n => [(t.key, Itoa n)]
    | .strings l => if t.comma then [(t.key, joinWith (lit ",") l)] else l.map (fun x => (t.key, x))
    | .strPtr p => [(t.key, p.getD [])]

/-- Modelled from the spec: the key-value pairs of the serialized options value. -/
def queryPairs (o : ListGroupEpicsOptions) : List (GoString × GoString) :=
  o.urlFields.flatMap (fun f => encodeField f.1 f.2)

/-- Modelled from the spec: the serialized query string as the spec words it, the pairs
written `key=value` and joined by `&` (in declaration order, before the URL encoding that
`RawQuery` applies). -/
def queryString (o : ListGroupEpicsOptions) : GoString :=
  joinWith (lit "&") ((queryPairs o).map (fun kv => kv.1 ++ lit "=" ++ kv.2))

/-- The order `<=` of Go strings: lexicographic, byte by byte. -/
def strLe : GoString → GoString → Bool
  | [], _ => true
  | _ :: _, [] => false
  | x :: xs, y :: ys => decide (x.val < y.val) || (x.val == y.val && strLe xs ys)

/-- The keys of a list of pairs in the order `url.Values.Encode` visits them: each key once,
sorted (`sort.Strings`). -/
def sortedKeys (v : List (GoString × GoString)) : List GoString :=
  ((v.map Prod.fst).dedup).insertionSort (fun a b => strLe a b = true)

/-- The `key=value` segments `url.Values.Encode` writes for the pairs `v` (given in the order
they were added): the keys in sorted order, under each key its values in the order they were
added, key and value both passed through `QueryEscape`. -/
def encodeSegments (v : List (GoString × GoString)) : List GoString :=
  (sortedKeys v).flatMap (fun k =>
    (v.filter (fun kv => kv.1 == k)).map (fun kv => QueryEscape k ++ lit "=" ++ QueryEscape kv.2))

/-- The method `url.Values.Encode` of the Go standard library: the segments joined by `&`. -/
def Encode (v : List (GoString × GoString)) : GoString :=
  joinWith (lit "&") (encodeSegments v)

/-- Modelled from the spec: the request builder `NewRequest` is not part of `epics.go`; the
spec has it serialize the options value as the query string of the request.  The string sent
is the URL-encoded form of the pairs, as `url.Values.Encode` writes a query: sorted by key,
keys and values query-escaped. -/
def RawQuery (o : ListGroupEpicsOptions) : GoString := Encode (queryPairs o)

/-- Whether a segment of a query string is a pair with the key `labels`. -/
def isLabelsPair (seg : GoString) : Bool := (lit "labels=").isPrefixOf seg

/-! ## JSON decoding and encoding of `Epic`

`encoding/json` (Go standard library) works on the struct by reflection: it first computes
the list of fields it will use from the `json` tags, then for each member of the JSON object
looks the key up in that list and stores the value in the field.  The embedding follows these
steps on parsed JSON values. -/

/-- A parsed JSON value.  A number keeps its literal. -/
inductive JSON where
  | null
  | bool (b : Bool)
  | number (literal : GoString)
  | string (s : GoString)
  | array (xs : List JSON)
  | object (ms : List (GoString × JSON))

/-- Whether a JSON value is the literal `null`. -/
def JSON.isNull : JSON → Bool
  | .null => true
  | _ => false

/-- An error reported by `encoding/json` or by a custom `MarshalJSON`/`UnmarshalJSON`. -/
structure JSONError where
  msg : GoString
deriving DecidableEq

/-- The fields of `Epic`. -/
inductive EpicField where
  | ID | IID | GroupID | Title | Description | Author | StartDate | StartDateIsFixed
  | StartDateFixed | StartDateFromMilestone | EndDate | DueDate | DueDateIsFixed
  | DueDateFixed | DueDateFromMilestone | UpdatedAt | CreatedAt | Labels
deriving DecidableEq

/-- The `json` tag of every field of `Epic`, in declaration order. -/
def Epic.jsonTags : List (EpicField × GoString) :=
  [ (.ID, lit "id"),
    (.IID, lit "iid"),
    (.GroupID, lit "group_id"),
    (.Title, lit "string"),
    (.Description, lit "description"),
    (.Author, lit "author"),
    (.StartDate, lit "start_date"),
    (.StartDateIsFixed, lit "start_date_is_fixed"),
    (.StartDateFixed, lit "start_date_fixed"),
    (.StartDateFromMilestone, lit "start_date_from_milestone"),
    (.EndDate, lit "end_date"),
    (.DueDate, lit "end_date"),
    (.DueDateIsFixed, lit "end_date_is_fixed"),
    (.DueDateFixed, lit "end_date_fixed"),
    (.DueDateFromMilestone, lit "end_date_from_milestone"),
    (.UpdatedAt, lit "updated_at"),
    (.CreatedAt, lit "created_at"),
    (.Labels, lit "labels") ]

/-- The field list `encoding/json` computes for a struct whose fields are all tagged and all
at the same depth (`typeFields`): when several fields carry the same JSON name none of them
dominates and all of them are dropped, without an error; the other fields are kept in
declaration order. -/
def dominantFields (fs : List (EpicField × GoString)) : List (EpicField × GoString) :=
  fs.filter (fun f => (fs.filter (fun g => g.2 == f.2)).length == 1)

/-- The fields of `Epic` that `encoding/json` reads and writes. -/
def Epic.jsonFields : List (EpicField × GoString) := dominantFields Epic.jsonTags

/-- The field an object key is stored in: a field whose name is exactly the key if there is
one, else the first field whose name matches the key under the case-insensitive comparison
`fold`, else none (the member is skipped). -/
def findField (fold : GoString → GoString → Bool) (fs : List (EpicField × GoString))
    (key : GoString) : Option EpicField :=
  match fs.find? (fun f => f.2 == key) with
  | some f => some f.1
  | none => (fs.find? (fun f => fold f.2 key)).map (fun f => f.1)

/-- What is outside `epics.go` in the JSON handling of an `Epic`:

* how `encoding/json` stores a JSON value in a field whose type has no `UnmarshalJSON` method
  (`int`, `string`, `bool`, `*EpicAuthor`, `[]string`): the new value of the field and the
  type error it saves, if any; decoding goes on after such an error;
* how it renders such a field;
* the zero values of `ISOTime` and `time.Time` and their methods `UnmarshalJSON` (the value
  left in the receiver and the error returned) and `MarshalJSON`. -/
structure Codec (ISOTime Time : Type) where
  storeInt : Int → JSON → Int × Option JSONError
  storeString : GoString → JSON → GoString × Option JSONError
  storeBool : Bool → JSON → Bool × Option JSONError
  storeAuthor : Option EpicAuthor → JSON → Option EpicAuthor × Option JSONError
  storeLabels : Option (List GoString) → JSON → Option (List GoString) × Option JSONError
  encInt : Int → JSON
  encString : GoString → JSON
  encBool : Bool → JSON
  encAuthor : Option EpicAuthor → JSON
  encLabels : Option (List GoString) → JSON
  zeroISOTime : ISOTime
  unmarshalISOTime : ISOTime → JSON → ISOTime × Option JSONError
  marshalISOTime : ISOTime → Except JSONError JSON
  zeroTime : Time
  unmarshalTime : Time → JSON → Time × Option JSONError
  marshalTime : Time → Except JSONError JSON

/-- How storing one member ended: without error, with a type error that is saved while
decoding goes on, or with an error of an `UnmarshalJSON` method, which stops decoding. -/
inductive Status where
  | ok
  | saved (err : JSONError)
  | abort (err : JSONError)
deriving DecidableEq

/-- The status of a store into a field without an `UnmarshalJSON` method. -/
def Status.ofSaved : Option JSONError → Status
  | none => .ok
  | some err => .saved err

/-- Storing a JSON value in a pointer field whose element type has an `UnmarshalJSON` method:
`null` sets the pointer to nil; for any other value a nil pointer is first set to a fresh
zero value, then `UnmarshalJSON` runs on the pointee, and its error stops decoding. -/
def storePtr {α : Type} (zero : α) (unmarshal : α → JSON → α × Option JSONError)
    (cur : Option α) (v : JSON) : Option α × Status :=
  if v.isNull then (none, .ok)
  else
    match unmarshal (cur.getD zero) v with
    | (t, none) => (some t, .ok)
    | (t, some err) => (some t, .abort err)

/-- Storing a JSON value in one field of an `Epic`. -/
def Epic.store {ISOTime Time : Type} (c : Codec ISOTime Time) (e : Epic ISOTime Time)
    (f : EpicField) (v : JSON) : Epic ISOTime Time × Status :=
  match f with
  | .ID => let r := c.storeInt e.ID v; ({ e with ID := r.1 }, .ofSaved r.2)
  | .IID => let r := c.storeInt e.IID v; ({ e with IID := r.1 }, .ofSaved r.2)
  | .GroupID => let r := c.storeInt e.GroupID v; ({ e with GroupID := r.1 }, .ofSaved r.2)
  | .Title => let r := c.storeString e.Title v; ({ e with Title := r.1 }, .ofSaved r.2)
  | .Description =>
    let r := c.storeString e.Description v; ({ e with Description := r.1 }, .ofSaved r.2)
  | .Author => let r := c.storeAuthor e.Author v; ({ e with Author := r.1 }, .ofSaved r.2)
  | .StartDate =>
    let r := storePtr c.zeroISOTime c.unmarshalISOTime e.StartDate v
    ({ e with StartDate := r.1 }, r.2)
  | .StartDateIsFixed =>
    let r := c.storeBool e.StartDateIsFixed v
    ({ e with StartDateIsFixed := r.1 }, .ofSaved r.2)
  | .StartDateFixed =>
    let r := c.storeString e.StartDateFixed v
    ({ e with StartDateFixed := r.1 }, .ofSaved r.2)
  | .StartDateFromMilestone =>
    let r := c.storeString e.StartDateFromMilestone v
    ({ e with StartDateFromMilestone := r.1 }, .ofSaved r.2)
  | .EndDate =>
    let r := storePtr c.zeroISOTime c.unmarshalISOTime e.EndDate v
    ({ e with EndDate := r.1 }, r.2)
  | .DueDate =>
    let r := storePtr c.zeroISOTime c.unmarshalISOTime e.DueDate v
    ({ e with DueDate := r.1 }, r.2)
  | .DueDateIsFixed =>
    let r := c.storeBool e.DueDateIsFixed v
    ({ e with DueDateIsFixed := r.1 }, .ofSaved r.2)
  | .DueDateFixed =>
    let r := c.storeString e.DueDateFixed v
    ({ e with DueDateFixed := r.1 }, .ofSaved r.2)
  | .DueDateFromMilestone =>
    let r := c.storeString e.DueDateFromMilestone v
    ({ e with DueDateFromMilestone := r.1 }, .ofSaved r.2)
  | .UpdatedAt =>
    let r := storePtr c.zeroTime c.unmarshalTime e.UpdatedAt v
    ({ e with UpdatedAt := r.1 }, r.2)
  | .CreatedAt =>
    let r := storePtr c.zeroTime c.unmarshalTime e.CreatedAt v
    ({ e with CreatedAt := r.1 }, r.2)
  | .Labels => let r := c.storeLabels e.Labels v; ({ e with Labels := r.1 }, .ofSaved r.2)

/-- Decoding the members of a JSON object into an `Epic`, in order: a member whose key
matches no field is skipped; the first saved type error is kept while decoding goes on; an
error of an `UnmarshalJSON` method stops decoding and is the error returned.  The result is
the state of the destination and the error, if any. -/
def decodeMembers {ISOTime Time : Type} (c : Codec ISOTime Time)
    (fold : GoString → GoString → Bool) :
    List (GoString × JSON) → Epic ISOTime Time → Option JSONError →
      Epic ISOTime Time × Option JSONError
  | [], e, saved => (e, saved)
  | (k, v) :: rest, e, saved =>
    match findField fold Epic.jsonFields k with
    | none => decodeMembers c fold rest e saved
    | some f =>
      match e.store c f v with
      | (e1, .ok) => decodeMembers c fold rest e1 saved
      | (e1, .saved err) => decodeMembers c fold rest e1 (saved.orElse (fun _ => some err))
      | (e1, .abort err) => (e1, some err)

/-- The zero value of `Epic`. -/
def Epic.zero {ISOTime Time : Type} : Epic ISOTime Time :=
  ⟨0, 0, 0, [], [], none, none, false, [], [], none, none, false, [], [], none, none, none⟩

/-- Decoding a JSON record (the members of a JSON object) into a fresh `Epic`. -/
def decodeEpic {ISOTime Time : Type} (c : Codec ISOTime Time)
    (fold : GoString → GoString → Bool) (ms : List (GoString × JSON)) :
    Epic ISOTime Time × Option JSONError :=
  decodeMembers c fold ms Epic.zero none

/-- The JSON rendering of a pointer field whose element type has a `MarshalJSON` method:
`null` for a nil pointer, else what `MarshalJSON` returns. -/
def encodePtr {α : Type} (marshal : α → Except JSONError JSON) : Option α → Except JSONError JSON
  | none => .ok .null
  | some t => marshal t

/-- The JSON rendering of one field of an `Epic`. -/
def Epic.fieldJSON {ISOTime Time : Type} (c : Codec ISOTime Time) (e : Epic ISOTime Time) :
    EpicField → Except JSONError JSON
  | .ID => .ok (c.encInt e.ID)
  | .IID => .ok (c.encInt e.IID)
  | .GroupID => .ok (c.encInt e.GroupID)
  | .Title => .ok (c.encString e.Title)
  | .Description => .ok (c.encString e.Description)
  | .Author => .ok (c.encAuthor e.Author)
  | .StartDate => encodePtr c.marshalISOTime e.StartDate
  | .StartDateIsFixed => .ok (c.encBool e.StartDateIsFixed)
  | .StartDateFixed => .ok (c.encString e.StartDateFixed)
  | .StartDateFromMilestone => .ok (c.encString e.StartDateFromMilestone)
  | .EndDate => encodePtr c.marshalISOTime e.EndDate
  | .DueDate => encodePtr c.marshalISOTime e.DueDate
  | .DueDateIsFixed => .ok (c.encBool e.DueDateIsFixed)
  | .DueDateFixed => .ok (c.encString e.DueDateFixed)
  | .DueDateFromMilestone => .ok (c.encString e.DueDateFromMilestone)
  | .UpdatedAt => encodePtr c.marshalTime e.UpdatedAt
  | .CreatedAt => encodePtr c.marshalTime e.CreatedAt
  | .Labels => .ok (c.encLabels e.Labels)

/-- The members written for a list of fields, in order; the first error of a `MarshalJSON`
method is the result. -/
def encodeFields {ISOTime Time : Type} (c : Codec ISOTime Time) (e : Epic ISOTime Time) :
    List (EpicField × GoString) → Except JSONError (List (GoString × JSON))
  | [] => .ok []
  | f :: rest =>
    match e.fieldJSON c f.1 with
    | .error err => .error err
    | .ok v =>
      match encodeFields c e rest with
      | .error err => .error err
      | .ok ms => .ok ((f.2, v) :: ms)

/-- Encoding an `Epic` to a JSON record: one member per field of `Epic.jsonFields`. -/
def encodeEpic {ISOTime Time : Type} (c : Codec ISOTime Time) (e : Epic ISOTime Time) :
    Except JSONError (List (GoString × JSON)) :=
  encodeFields c e Epic.jsonFields

/-- The optional date/time fields of `Epic`. -/
def dateFields : List EpicField := [.StartDate, .EndDate, .DueDate, .UpdatedAt, .CreatedAt]

/-- The `json` tag declared for a field in the source. -/
def Epic.tagOf (f : EpicField) : GoString :=
  match Epic.jsonTags.find? (fun g => g.1 == f) with
  | some g => g.2
  | none => []

/-- Whether an optional date/time field of an `Epic` is present (a non-nil pointer). -/
def Epic.present {ISOTime Time : Type} (e : Epic ISOTime Time) : EpicField → Bool
  | .StartDate => e.StartDate.isSome
  | .EndDate => e.EndDate.isSome
  | .DueDate => e.DueDate.isSome
  | .UpdatedAt => e.UpdatedAt.isSome
  | .CreatedAt => e.CreatedAt.isSome
  | _ => false

/-- The encoding `url.QueryEscape` applies to one byte: an unreserved byte is kept, a space
becomes `+`, any other byte becomes its `%HH` escape. -/
def escapeByte (c : Byte) : GoString :=
  if isUnreserved c then [c]
  else if c.val = 32 then [ascii '+']
  else [ascii '%', upperhex (c.val / 16), upperhex (c.val % 16)]

/-- The path of the first transport call of an outcome, when that call is `NewRequest`. -/
def requestPath {Req Resp OptFn E World Rec : Type} (out : Outcome Req Resp OptFn E World Rec) :
    Option GoString :=
  match out.calls with
  | .NewRequest _ path _ _ :: _ => some path
  | _ => none

/-- A transport stub with fixed answers: the error of the request builder, and what the
executor leaves in the destination, the envelope and the error it returns.  Envelopes and
transport errors are numbers. -/
def stubClient {Rec : Type} (reqErr : Option (Error Nat)) (written : Slice Rec)
    (resp : Option Nat) (doErr : Option (Error Nat)) : Client Unit Nat Unit Nat Unit Rec :=
  ⟨fun w _ _ _ _ => (w, (), reqErr), fun w _ _ => (w, written, resp, doErr)⟩

/-- An `Epic` with the given `ID` and every other field zero, with dates of type `Unit`. -/
def epicWithID (n : Int) : Epic Unit Unit := { (Epic.zero : Epic Unit Unit) with ID := n }

/-- Whether the value a JSON record gives for the key `tag` is `null`: the record has a
member whose key is `tag`, and every member whose key is `tag` or matches it under the
case-insensitive comparison `fold` has the value `null`. -/
def nullAt (fold : GoString → GoString → Bool) (tag : GoString) (ms : List (GoString × JSON)) :
    Bool :=
  ms.any (fun m => m.1 == tag) &&
    ms.all (fun m => !(m.1 == tag || fold tag m.1) || m.2.isNull)

/-! ### A concrete instance of the JSON parameters

Used to evaluate the model on example records: a date is kept as the text of its JSON string,
and a field accepts the JSON values of its own type. -/

/-- The lower-case form of an ASCII letter. -/
def asciiLower (c : Byte) : Byte :=
  if 65 ≤ c.val ∧ c.val ≤ 90 then Fin.ofNat (c.val + 32) else c

/-- Equality of two strings up to the case of ASCII letters. -/
def asciiFold (a b : GoString) : Bool := a.map asciiLower == b.map asciiLower

/-- The value of a decimal literal made of digits only. -/
def decimalValue (s : GoString) : Option Nat :=
  if s.isEmpty then none
  else s.foldl (fun acc c =>
    match acc with
    | none => none
    | some n => if 48 ≤ c.val ∧ c.val ≤ 57 then some (10 * n + (c.val - 48)) else none) (some 0)

/-- The error saved when a JSON value does not fit the type of a field. -/
def typeError : JSONError := ⟨lit "json: cannot unmarshal value into Go struct field"⟩

/-- Storing a JSON value in a string of the example instance. -/
def exampleStoreString (cur : GoString) : JSON → GoString × Option JSONError
  | .null => (cur, none)
  | .string s => (s, none)
  | _ => (cur, some typeError)

/-- Storing a JSON value in an `int` of the example instance. -/
def exampleStoreInt (cur : Int) : JSON → Int × Option JSONError
  | .null => (cur, none)
  | .number l =>
    match decimalValue l with
    | some n => (n, none)
    | none => (cur, some typeError)
  | _ => (cur, some typeError)

/-- Storing a JSON value in a `bool` of the example instance. -/
def exampleStoreBool (cur : Bool) : JSON → Bool × Option JSONError
  | .null => (cur, none)
  | .bool b => (b, none)
  | _ => (cur, some typeError)

/-- Storing a JSON value in the `*EpicAuthor` of the example instance: only the member `name`
of an object is read. -/
def exampleStoreAuthor (cur : Option EpicAuthor) : JSON → Option EpicAuthor × Option JSONError
  | .null => (none, none)
  | .object ms =>
    let a := cur.getD ⟨0, [], [], [], [], []⟩
    match ms.find? (fun m => m.1 == lit "name") with
    | some (_, .string s) => (some { a with Name := s }, none)
    | _ => (some a, none)
  | _ => (some (cur.getD ⟨0, [], [], [], [], []⟩), some typeError)

/-- Storing a JSON value in the `[]string` of the example instance. -/
def exampleStoreLabels (cur : Option (List GoString)) :
    JSON → Option (List GoString) × Option JSONError
  | .null => (none, none)
  | .array xs =>
    (some (xs.map (fun x => match x with
      | .string s => s
      | _ => [])), none)
  | _ => (cur, some typeError)

/-- The method `UnmarshalJSON` of the example instance: the text of a JSON string is the
date; any other value is an error and leaves the zero date. -/
def exampleUnmarshal (_cur : GoString) : JSON → GoString × Option JSONError
  | .string s => (s, none)
  | _ => ([], some ⟨lit "parsing time: cannot parse"⟩)

/-- The example instance of the JSON parameters. -/
def exampleCodec : Codec GoString GoString :=
  { storeInt := exampleStoreInt
    storeString := exampleStoreString
    storeBool := exampleStoreBool
    storeAuthor := exampleStoreAuthor
    storeLabels := exampleStoreLabels
    encInt := fun n => .number (Itoa n)
    encString := fun s => .string s
    encBool := fun b => .bool b
    encAuthor := fun a =>
      match a with
      | none => .null
      | some x => .object [(lit "id", .number (Itoa x.ID)), (lit "name", .string x.Name)]
    encLabels := fun l =>
      match l with
      | none => .null
      | some xs => .array (xs.map (fun x => .string x))
    zeroISOTime := []
    unmarshalISOTime := exampleUnmarshal
    marshalISOTime := fun t => .ok (.string t)
    zeroTime := []
    unmarshalTime := exampleUnmarshal
    marshalTime := fun t => .ok (.string t) }

/-- An example record: `id` 7, a null `start_date`, a `created_at` timestamp and two
labels. -/
def exampleRecord : List (GoString × JSON) :=
  [ (lit "id", .number (lit "7")),
    (lit "start_date", .null),
    (lit "created_at", .string (lit "2019-05-01T10:00:00Z")),
    (lit "labels", .array [.string (lit "a"), .string (lit "b")]) ]

/-! ## Theorems -/

set_option maxRecDepth 100000 in
theorem shouldEscape_eq_not_unreserved : ∀ c : Byte, shouldEscape c = !isUnreserved c := by
  decide

set_option maxRecDepth 100000 in
theorem space_not_unreserved : ∀ c : Byte, c.val = 32 → isUnreserved c = false := by
  decide

theorem escapeLoop_eq_flatMap (s : GoString) : escapeLoop s = s.flatMap escapeByte := by
  induction s with
  | nil => rfl
  | cons c rest ih =>
    simp only [escapeLoop, List.flatMap_cons, escapeByte, ih, shouldEscape_eq_not_unreserved]
    by_cases h32 : c.val = 32
    · simp [h32, space_not_unreserved c h32]
    · by_cases hu : isUnreserved c <;> simp [h32, hu]

theorem escapeLoop_of_counts_zero (s : GoString) (hs : spaceCount s = 0) (hh : hexCount s = 0) :
    escapeLoop s = s := by
  induction s with
  | nil => rfl
  | cons c rest ih =>
    simp only [spaceCount, hexCount, List.length_eq_zero, List.filter_eq_nil_iff] at hs hh ih
    have hc1 := hs c (List.mem_cons_self _ _)
    have hc2 := hh c (List.mem_cons_self _ _)
    have hne : shouldEscape c = false := by
      cases hse : shouldEscape c with
      | false => rfl
      | true => simp [hse] at hc1 hc2; exact absurd hc2 hc1
    have h32 : ¬ c.val = 32 := by
      intro h
      have := space_not_unreserved c h
      rw [shouldEscape_eq_not_unreserved] at hne
      simp [this] at hne
    have ih1 := ih (fun a ha => hs a (List.mem_cons_of_mem _ ha))
      (fun a ha => hh a (List.mem_cons_of_mem _ ha))
    simp [escapeLoop, hne, h32, ih1]

theorem escapeLoop_of_hexCount_zero (s : GoString) (hh : hexCount s = 0) :
    escapeLoop s = s.map (fun c => if c.val == 32 then ascii '+' else c) := by
  induction s with
  | nil => rfl
  | cons c rest ih =>
    simp only [hexCount, List.length_eq_zero, List.filter_eq_nil_iff] at hh ih
    have hc2 := hh c (List.mem_cons_self _ _)
    have ih1 := ih (fun a ha => hh a (List.mem_cons_of_mem _ ha))
    by_cases h32 : c.val = 32
    · simp [escapeLoop, h32, ih1]
    · have hne : shouldEscape c = false := by
        cases hse : shouldEscape c with
        | false => rfl
        | true => simp [hse, h32] at hc2
      simp [escapeLoop, h32, hne, ih1]

/-- The three branches of `escape` compute the byte-wise encoding. -/
theorem QueryEscape_eq_flatMap (s : GoString) : QueryEscape s = s.flatMap escapeByte := by
  rw [← escapeLoop_eq_flatMap]
  unfold QueryEscape escape
  by_cases hh : hexCount s = 0
  · by_cases hs : spaceCount s = 0
    · simp [hh, hs, escapeLoop_of_counts_zero s hs hh]
    · simp [hh, hs, escapeLoop_of_hexCount_zero s hh]
  · simp [hh]

/-! ### The four ways `ListGroupEpics` ends -/

theorem ListGroupEpics_of_parse_error {Req Resp OptFn E World ISOTime Time : Type}
    (client : Client Req Resp OptFn E World (Option (Epic ISOTime Time))) (w : World)
    (pid : ID) (opt : Option ListGroupEpicsOptions) (options : List OptFn) (e : Error E)
    (hp : parseID pid = .error e) :
    ListGroupEpics client w pid opt options = ⟨none, none, some e, [], w⟩ := by
  simp only [ListGroupEpics, hp]

theorem ListGroupEpics_of_request_error {Req Resp OptFn E World ISOTime Time : Type}
    (client : Client Req Resp OptFn E World (Option (Epic ISOTime Time))) (w w1 : World)
    (pid : ID) (opt : Option ListGroupEpicsOptions) (options : List OptFn) (group : GoString)
    (req : Req) (e : Error E)
    (hp : (parseID pid : Except (Error E) GoString) = .ok group)
    (hn : client.NewRequest w (lit "GET") (lit "groups/" ++ QueryEscape group ++ lit "/epics")
      opt options = (w1, req, some e)) :
    ListGroupEpics client w pid opt options =
      ⟨none, none, some e,
        [.NewRequest (lit "GET") (lit "groups/" ++ QueryEscape group ++ lit "/epics") opt options],
        w1⟩ := by
  simp only [ListGroupEpics, hp, hn]

theorem ListGroupEpics_of_do_error {Req Resp OptFn E World ISOTime Time : Type}
    (client : Client Req Resp OptFn E World (Option (Epic ISOTime Time))) (w w1 w2 : World)
    (pid : ID) (opt : Option ListGroupEpicsOptions) (options : List OptFn) (group : GoString)
    (req : Req) (i : Slice (Option (Epic ISOTime Time))) (resp : Option Resp) (e : Error E)
    (hp : (parseID pid : Except (Error E) GoString) = .ok group)
    (hn : client.NewRequest w (lit "GET") (lit "groups/" ++ QueryEscape group ++ lit "/epics")
      opt options = (w1, req, none))
    (hd : client.Do w1 req none = (w2, i, resp, some e)) :
    ListGroupEpics client w pid opt options =
      ⟨none, resp, some e,
        [.NewRequest (lit "GET") (lit "groups/" ++ QueryEscape group ++ lit "/epics") opt options,
          .Do req], w2⟩ := by
  simp only [ListGroupEpics, hp, hn, hd]

theorem ListGroupEpics_of_success {Req Resp OptFn E World ISOTime Time : Type}
    (client : Client Req Resp OptFn E World (Option (Epic ISOTime Time))) (w w1 w2 : World)
    (pid : ID) (opt : Option ListGroupEpicsOptions) (options : List OptFn) (group : GoString)
    (req : Req) (i : Slice (Option (Epic ISOTime Time))) (resp : Option Resp)
    (hp : (parseID pid : Except (Error E) GoString) = .ok group)
    (hn : client.NewRequest w (lit "GET") (lit "groups/" ++ QueryEscape group ++ lit "/epics")
      opt options = (w1, req, none))
    (hd : client.Do w1 req none = (w2, i, resp, none)) :
    ListGroupEpics client w pid opt options =
      ⟨i, resp, none,
        [.NewRequest (lit "GET") (lit "groups/" ++ QueryEscape group ++ lit "/epics") opt options,
          .Do req], w2⟩ := by
  simp only [ListGroupEpics, hp, hn, hd]

/-- Once the identifier is resolved, the first transport call is the request builder, with
method `GET`, the composed path, and the options passed through. -/
theorem ListGroupEpics_first_call {Req Resp OptFn E World ISOTime Time : Type}
    (client : Client Req Resp OptFn E World (Option (Epic ISOTime Time))) (w : World)
    (pid : ID) (opt : Option ListGroupEpicsOptions) (options : List OptFn) (group : GoString)
    (hp : (parseID pid : Except (Error E) GoString) = .ok group) :
    (ListGroupEpics client w pid opt options).calls.head? =
      some (.NewRequest (lit "GET") (lit "groups/" ++ QueryEscape group ++ lit "/epics")
        opt options) := by
  rcases hn : client.NewRequest w (lit "GET")
    (lit "groups/" ++ QueryEscape group ++ lit "/epics") opt options with ⟨w1, req, _ | e⟩
  · rcases hd : client.Do w1 req none with ⟨w2, i, resp, _ | e⟩
    · rw [ListGroupEpics_of_success client w w1 w2 pid opt options group req i resp hp hn hd]
      rfl
    · rw [ListGroupEpics_of_do_error client w w1 w2 pid opt options group req i resp e hp hn hd]
      rfl
  · rw [ListGroupEpics_of_request_error client w w1 pid opt options group req e hp hn]
    rfl

/-! ### The request path -/

theorem upperhex_safe (n : Nat) (h : n < 16) :
    upperhex n ≠ ascii '/' ∧ upperhex n ≠ ascii '?' ∧ upperhex n ≠ ascii '#' := by
  interval_cases n <;> decide

set_option maxRecDepth 100000 in
theorem unreserved_safe : ∀ c : Byte, isUnreserved c = true →
    c ≠ ascii '/' ∧ c ≠ ascii '?' ∧ c ≠ ascii '#' := by
  decide

theorem escapeByte_safe (c x : Byte) (hx : x ∈ escapeByte c) :
    x ≠ ascii '/' ∧ x ≠ ascii '?' ∧ x ≠ ascii '#' := by
  unfold escapeByte at hx
  split at hx
  · rename_i hu
    simp only [List.mem_singleton] at hx
    subst hx
    exact unreserved_safe x hu
  · split at hx
    · simp only [List.mem_singleton] at hx
      subst hx
      decide
    · simp only [List.mem_cons, List.mem_singleton, List.not_mem_nil, or_false] at hx
      rcases hx with h | h | h
      · subst h; decide
      · subst h; exact upperhex_safe _ (by omega)
      · subst h; exact upperhex_safe _ (by omega)

theorem QueryEscape_safe (s : GoString) : ∀ x ∈ QueryEscape s,
    x ≠ ascii '/' ∧ x ≠ ascii '?' ∧ x ≠ ascii '#' := by
  intro x hx
  rw [QueryEscape_eq_flatMap, List.mem_flatMap] at hx
  obtain ⟨c, _, hxc⟩ := hx
  exact escapeByte_safe c x hxc

/-- C1 (as amended): for an int or a string identifier, the first transport call of
`ListGroupEpics` is the request builder with method `GET` and the path `groups/` ++ enc(s) ++
`/epics`, where `s` is the decimal rendering of the int or the string itself and enc keeps
every unreserved byte, turns a space into `+` and replaces every other byte by its `%HH`
escape. -/
theorem ListGroupEpics_request_path {Req Resp OptFn E World ISOTime Time : Type}
    (client : Client Req Resp OptFn E World (Option (Epic ISOTime Time))) (w : World)
    (opt : Option ListGroupEpicsOptions) (options : List OptFn) :
    (∀ v : Int, (ListGroupEpics client w (.int v) opt options).calls.head? =
      some (.NewRequest (lit "GET")
        (lit "groups/" ++ (Itoa v).flatMap escapeByte ++ lit "/epics") opt options)) ∧
    (∀ s : GoString, (ListGroupEpics client w (.string s) opt options).calls.head? =
      some (.NewRequest (lit "GET")
        (lit "groups/" ++ s.flatMap escapeByte ++ lit "/epics") opt options)) := by
  constructor
  · intro v
    rw [← QueryEscape_eq_flatMap]
    exact ListGroupEpics_first_call client w (.int v) opt options (Itoa v) rfl
  · intro s
    rw [← QueryEscape_eq_flatMap]
    exact ListGroupEpics_first_call client w (.string s) opt options s rfl

/-- C1 (as stated) fails: for the string identifier `a b` the path handed to the request
builder is `groups/a+b/epics`, while pure percent-encoding gives `groups/a%20b/epics`. -/
theorem ListGroupEpics_space_not_percent_encoded :
    requestPath (ListGroupEpics
        (stubClient none none none none : Client Unit Nat Unit Nat Unit (Option (Epic Unit Unit)))
        () (.string (lit "a b")) none []) = some (lit "groups/a+b/epics") ∧
      lit "groups/" ++ pctEncode (lit "a b") ++ lit "/epics" = lit "groups/a%20b/epics" ∧
      requestPath (ListGroupEpics
        (stubClient none none none none : Client Unit Nat Unit Nat Unit (Option (Epic Unit Unit)))
        () (.string (lit "a b")) none []) ≠
        some (lit "groups/" ++ pctEncode (lit "a b") ++ lit "/epics") := by
  decide

/-- C10: for an int or a string identifier resolved to `group`, the escaped identifier that
`ListGroupEpics` interpolates contains none of `/`, `?`, `#`; the path handed to the request
builder has exactly two `/` and splits on `/` into `groups`, the escaped identifier and
`epics`. -/
theorem ListGroupEpics_single_segment {Req Resp OptFn E World ISOTime Time : Type}
    (client : Client Req Resp OptFn E World (Option (Epic ISOTime Time))) (w : World)
    (pid : ID) (opt : Option ListGroupEpicsOptions) (options : List OptFn) (group : GoString)
    (hp : (parseID pid : Except (Error E) GoString) = .ok group) :
    (∀ x ∈ QueryEscape group, x ≠ ascii '/' ∧ x ≠ ascii '?' ∧ x ≠ ascii '#') ∧
    requestPath (ListGroupEpics client w pid opt options) =
      some (lit "groups/" ++ QueryEscape group ++ lit "/epics") ∧
    (lit "groups/" ++ QueryEscape group ++ lit "/epics").count (ascii '/') = 2 ∧
    (lit "groups/" ++ QueryEscape group ++ lit "/epics").splitOn (ascii '/') =
      [lit "groups", QueryEscape group, lit "epics"] := by
  have hsafe := QueryEscape_safe group
  have hno : ascii '/' ∉ QueryEscape group := fun hmem => (hsafe _ hmem).1 rfl
  refine ⟨hsafe, ?_, ?_, ?_⟩
  · have h := ListGroupEpics_first_call client w pid opt options group hp
    unfold requestPath
    cases hc : (ListGroupEpics client w pid opt options).calls with
    | nil => rw [hc] at h; simp at h
    | cons a rest =>
      rw [hc] at h
      simp only [List.head?_cons, Option.some.injEq] at h
      subst h
      rfl
  · rw [List.count_append, List.count_append, List.count_eq_zero_of_not_mem hno]
    decide
  · have hint : lit "groups/" ++ QueryEscape group ++ lit "/epics" =
        [ascii '/'].intercalate [lit "groups", QueryEscape group, lit "epics"] := by
      have h1 : lit "groups/" = lit "groups" ++ [ascii '/'] := by decide
      have h2 : lit "/epics" = [ascii '/'] ++ lit "epics" := by decide
      rw [h1, h2]
      simp [List.intercalate, List.intersperse]
    rw [hint]
    apply List.splitOn_intercalate
    · intro l hl
      simp only [List.mem_cons, List.mem_singleton, List.not_mem_nil, or_false] at hl
      rcases hl with h | h | h
      · subst h; decide
      · subst h; exact hno
      · subst h; decide
    · simp

/-- Witness for C10 at the namespace path `group/sub group?x#y%z`. -/
theorem ListGroupEpics_single_segment_witness :
    requestPath (ListGroupEpics
        (stubClient none none none none : Client Unit Nat Unit Nat Unit (Option (Epic Unit Unit)))
        () (.string (lit "group/sub group?x#y%z")) none []) =
      some (lit "groups/group%2Fsub+group%3Fx%23y%25z/epics") ∧
    (lit "groups/group%2Fsub+group%3Fx%23y%25z/epics").splitOn (ascii '/') =
      [lit "groups", lit "group%2Fsub+group%3Fx%23y%25z", lit "epics"] := by
  have h := ListGroupEpics_single_segment
    (stubClient none none none none : Client Unit Nat Unit Nat Unit (Option (Epic Unit Unit)))
    () (.string (lit "group/sub group?x#y%z")) none [] (lit "group/sub group?x#y%z") rfl
  have he : QueryEscape (lit "group/sub group?x#y%z") = lit "group%2Fsub+group%3Fx%23y%25z" := by
    decide
  rw [he] at h
  exact ⟨h.2.1, h.2.2.2⟩

/-! ### Errors and results -/

/-- C2: for an identifier whose dynamic type is neither int nor string, `ListGroupEpics`
returns a nil sequence, a nil envelope and the resolution error, invokes neither `NewRequest`
nor `Do`, and leaves the world as it was, whatever the options are. -/
theorem ListGroupEpics_invalid_identifier {Req Resp OptFn E World ISOTime Time : Type}
    (client : Client Req Resp OptFn E World (Option (Epic ISOTime Time))) (w : World)
    (r : GoString) (opt : Option ListGroupEpicsOptions) (options : List OptFn) :
    (parseID (.other r) : Except (Error E) GoString) = .error (.InvalidIdentifier (.other r)) ∧
    (ListGroupEpics client w (.other r) opt options).epics = none ∧
    (ListGroupEpics client w (.other r) opt options).resp = none ∧
    (ListGroupEpics client w (.other r) opt options).err =
      some (.InvalidIdentifier (.other r)) ∧
    (ListGroupEpics client w (.other r) opt options).calls = [] ∧
    (ListGroupEpics client w (.other r) opt options).world = w := by
  rw [ListGroupEpics_of_parse_error client w (.other r) opt options _ rfl]
  exact ⟨rfl, rfl, rfl, rfl, rfl, rfl⟩

/-- C3: whenever `ListGroupEpics` returns a non-nil error, the sequence it returns is nil,
for every identifier, options value and transport. -/
theorem ListGroupEpics_no_partial_results {Req Resp OptFn E World ISOTime Time : Type}
    (client : Client Req Resp OptFn E World (Option (Epic ISOTime Time))) (w : World)
    (pid : ID) (opt : Option ListGroupEpicsOptions) (options : List OptFn)
    (herr : (ListGroupEpics client w pid opt options).err ≠ none) :
    (ListGroupEpics client w pid opt options).epics = none := by
  rcases hp : (parseID pid : Except (Error E) GoString) with e | group
  · rw [ListGroupEpics_of_parse_error client w pid opt options e hp]
  · rcases hn : client.NewRequest w (lit "GET")
      (lit "groups/" ++ QueryEscape group ++ lit "/epics") opt options with ⟨w1, req, _ | e⟩
    · rcases hd : client.Do w1 req none with ⟨w2, i, resp, _ | e⟩
      · rw [ListGroupEpics_of_success client w w1 w2 pid opt options group req i resp hp hn hd]
          at herr
        exact absurd rfl herr
      · rw [ListGroupEpics_of_do_error client w w1 w2 pid opt options group req i resp e hp hn hd]
    · rw [ListGroupEpics_of_request_error client w w1 pid opt options group req e hp hn]

/-- Witness for C3: the executor fails with a decode error after writing one record into the
destination; the sequence returned is nil. -/
theorem ListGroupEpics_no_partial_results_witness :
    (ListGroupEpics (stubClient none (some [some (epicWithID 1)]) (some 200)
        (some (.transport 7))) () (.int 5) none []).err ≠ none ∧
    (ListGroupEpics (stubClient none (some [some (epicWithID 1)]) (some 200)
        (some (.transport 7))) () (.int 5) none []).epics = none :=
  ⟨by decide,
    ListGroupEpics_no_partial_results (stubClient none (some [some (epicWithID 1)]) (some 200)
      (some (.transport 7))) () (.int 5) none [] (by decide)⟩

/-- C4: for a resolved identifier, when the request builder succeeds and the executor writes
the sequence `L` into the destination and returns a nil error, `ListGroupEpics` returns a nil
error, the sequence `L` unchanged and the executor's envelope. -/
theorem ListGroupEpics_returns_decoded {Req Resp OptFn E World ISOTime Time : Type}
    (client : Client Req Resp OptFn E World (Option (Epic ISOTime Time))) (w w1 w2 : World)
    (pid : ID) (opt : Option ListGroupEpicsOptions) (options : List OptFn) (group : GoString)
    (req : Req) (L : Slice (Option (Epic ISOTime Time))) (resp : Option Resp)
    (hp : (parseID pid : Except (Error E) GoString) = .ok group)
    (hn : client.NewRequest w (lit "GET") (lit "groups/" ++ QueryEscape group ++ lit "/epics")
      opt options = (w1, req, none))
    (hd : client.Do w1 req none = (w2, L, resp, none)) :
    (ListGroupEpics client w pid opt options).err = none ∧
    (ListGroupEpics client w pid opt options).epics = L ∧
    (ListGroupEpics client w pid opt options).resp = resp := by
  rw [ListGroupEpics_of_success client w w1 w2 pid opt options group req L resp hp hn hd]
  exact ⟨rfl, rfl, rfl⟩

/-- Witness for C4: a response of two records yields exactly those two records, in order. -/
theorem ListGroupEpics_returns_decoded_witness :
    (ListGroupEpics (stubClient none (some [some (epicWithID 2), some (epicWithID 1)])
        (some 200) none) () (.string (lit "g")) none []).err = none ∧
    (ListGroupEpics (stubClient none (some [some (epicWithID 2), some (epicWithID 1)])
        (some 200) none) () (.string (lit "g")) none []).epics =
      some [some (epicWithID 2), some (epicWithID 1)] ∧
    (ListGroupEpics (stubClient none (some [some (epicWithID 2), some (epicWithID 1)])
        (some 200) none) () (.string (lit "g")) none []).resp = some 200 :=
  ListGroupEpics_returns_decoded (stubClient none (some [some (epicWithID 2), some (epicWithID 1)])
    (some 200) none) () () () (.string (lit "g")) none [] (lit "g") () _ _ rfl rfl rfl

/-- C5: the error `ListGroupEpics` returns is the error of the first failing step, unchanged,
and no later step is run: a resolution error with no transport call; a request-construction
error with `NewRequest` as the only call; an execution error together with the executor's
envelope. -/
theorem ListGroupEpics_error_propagation {Req Resp OptFn E World ISOTime Time : Type}
    (client : Client Req Resp OptFn E World (Option (Epic ISOTime Time))) (w : World)
    (pid : ID) (opt : Option ListGroupEpicsOptions) (options : List OptFn) (e : Error E) :
    (parseID pid = .error e →
      (ListGroupEpics client w pid opt options).err = some e ∧
      (ListGroupEpics client w pid opt options).calls = []) ∧
    (∀ group w1 req, (parseID pid : Except (Error E) GoString) = .ok group →
      client.NewRequest w (lit "GET") (lit "groups/" ++ QueryEscape group ++ lit "/epics")
        opt options = (w1, req, some e) →
      (ListGroupEpics client w pid opt options).err = some e ∧
      (ListGroupEpics client w pid opt options).calls =
        [.NewRequest (lit "GET") (lit "groups/" ++ QueryEscape group ++ lit "/epics")
          opt options]) ∧
    (∀ group w1 req w2 i resp, (parseID pid : Except (Error E) GoString) = .ok group →
      client.NewRequest w (lit "GET") (lit "groups/" ++ QueryEscape group ++ lit "/epics")
        opt options = (w1, req, none) →
      client.Do w1 req none = (w2, i, resp, some e) →
      (ListGroupEpics client w pid opt options).err = some e ∧
      (ListGroupEpics client w pid opt options).resp = resp) := by
  refine ⟨?_, ?_, ?_⟩
  · intro hp
    rw [ListGroupEpics_of_parse_error client w pid opt options e hp]
    exact ⟨rfl, rfl⟩
  · intro group w1 req hp hn
    rw [ListGroupEpics_of_request_error client w w1 pid opt options group req e hp hn]
    exact ⟨rfl, rfl⟩
  · intro group w1 req w2 i resp hp hn hd
    rw [ListGroupEpics_of_do_error client w w1 w2 pid opt options group req i resp e hp hn hd]
    exact ⟨rfl, rfl⟩

/-- Witness for C5: a request-construction error and an execution error, each returned
unchanged; the executor is not run after the first, its envelope is returned with the
second. -/
theorem ListGroupEpics_error_propagation_witness :
    ((ListGroupEpics (stubClient (some (.transport 3)) (some [some (epicWithID 1)]) (some 200)
        none) () (.int 5) none []).err = some (.transport 3) ∧
      (ListGroupEpics (stubClient (some (.transport 3)) (some [some (epicWithID 1)]) (some 200)
        none) () (.int 5) none []).calls =
        [.NewRequest (lit "GET") (lit "groups/" ++ QueryEscape (lit "5") ++ lit "/epics")
          none []]) ∧
    ((ListGroupEpics (stubClient none (some [some (epicWithID 1)]) (some 404)
        (some (.transport 3))) () (.int 5) none []).err = some (.transport 3) ∧
      (ListGroupEpics (stubClient none (some [some (epicWithID 1)]) (some 404)
        (some (.transport 3))) () (.int 5) none []).resp = some 404) :=
  ⟨(ListGroupEpics_error_propagation (stubClient (some (.transport 3))
      (some [some (epicWithID 1)]) (some 200) none) () (.int 5) none [] (.transport 3)).2.1
      (lit "5") () () rfl rfl,
    (ListGroupEpics_error_propagation (stubClient none (some [some (epicWithID 1)]) (some 404)
      (some (.transport 3))) () (.int 5) none [] (.transport 3)).2.2
      (lit "5") () () () _ _ rfl rfl rfl⟩

/-! ### Query parameters -/

theorem encodeField_keys (t : UrlTag) (v : FieldValue) :
    ∀ kv ∈ encodeField t v, kv.1 = t.key ∧ (t.omitempty && v.isZero) = false := by
  intro kv hkv
  unfold encodeField at hkv
  split at hkv
  · simp at hkv
  · rename_i hz
    refine ⟨?_, by simpa using hz⟩
    cases v with
    | int n => simp at hkv; rw [hkv]
    | strings l =>
      simp only at hkv
      split at hkv
      · simp at hkv; rw [hkv]
      · simp only [List.mem_map] at hkv
        obtain ⟨x, _, hx⟩ := hkv
        rw [← hx]
    | strPtr p => simp at hkv; rw [hkv]

theorem queryPairs_key_origin (o : ListGroupEpicsOptions) (k : GoString)
    (hk : k ∈ (queryPairs o).map Prod.fst) :
    ∃ f ∈ o.urlFields, f.1.key = k ∧ (f.1.omitempty && f.2.isZero) = false := by
  simp only [queryPairs, List.mem_map, List.mem_flatMap] at hk
  obtain ⟨kv, ⟨f, hf, hkv⟩, hfst⟩ := hk
  have h := encodeField_keys f.1 f.2 kv hkv
  exact ⟨f, hf, by rw [← hfst, h.1], h.2⟩

theorem encodeField_filter_other (t : UrlTag) (v : FieldValue) (k : GoString) (hne : t.key ≠ k) :
    (encodeField t v).filter (fun kv => kv.1 == k) = [] := by
  rw [List.filter_eq_nil_iff]
  intro kv hkv
  have h := (encodeField_keys t v kv hkv).1
  simp [h, hne]

theorem mem_infix_joinWith (sep p : GoString) (l : List GoString) (hp : p ∈ l) :
    p <:+: joinWith sep l := by
  induction l with
  | nil => simp at hp
  | cons x rest ih =>
    cases rest with
    | nil =>
      simp only [List.mem_singleton] at hp
      subst hp
      exact List.infix_refl _
    | cons y rest2 =>
      rw [joinWith]
      rcases List.mem_cons.mp hp with h | h
      · subst h
        rw [List.append_assoc]
        exact (List.prefix_append _ _).isInfix
      · exact (ih h).trans (List.suffix_append _ _).isInfix

/-- C6: serializing a `ListGroupEpicsOptions` value emits no key for a field left at its
zero/absent value (zero `Page`, `PerPage`, `Id`, `AuthorId`, empty `Labels`, nil `OrderBy`,
`Sort`, `Search`, `State`); for the value with every field unset there is no pair at all and
the query string is empty. -/
theorem queryString_omits_zero_fields (o : ListGroupEpicsOptions) :
    (o.toListOptions.Page = 0 → lit "page" ∉ (queryPairs o).map Prod.fst) ∧
    (o.toListOptions.PerPage = 0 → lit "per_page" ∉ (queryPairs o).map Prod.fst) ∧
    (o.Id = 0 → lit "id" ∉ (queryPairs o).map Prod.fst) ∧
    (o.AuthorId = 0 → lit "author_id" ∉ (queryPairs o).map Prod.fst) ∧
    (o.Labels = [] → lit "labels" ∉ (queryPairs o).map Prod.fst) ∧
    (o.OrderBy = none → lit "order_by" ∉ (queryPairs o).map Prod.fst) ∧
    (o.Sort_ = none → lit "sort" ∉ (queryPairs o).map Prod.fst) ∧
    (o.Search = none → lit "search" ∉ (queryPairs o).map Prod.fst) ∧
    (o.State = none → lit "state" ∉ (queryPairs o).map Prod.fst) ∧
    queryPairs ⟨⟨0, 0⟩, 0, 0, [], none, none, none, none⟩ = [] ∧
    queryString ⟨⟨0, 0⟩, 0, 0, [], none, none, none, none⟩ = [] := by
  have key : ∀ k : GoString, k ∈ (queryPairs o).map Prod.fst →
      ∃ f ∈ o.urlFields, f.1.key = k ∧ (f.1.omitempty && f.2.isZero) = false :=
    queryPairs_key_origin o
  refine ⟨?_, ?_, ?_, ?_, ?_, ?_, ?_, ?_, ?_, by decide, by decide⟩ <;>
  · intro hz hmem
    obtain ⟨f, hf, hk, hnz⟩ := key _ hmem
    simp only [ListGroupEpicsOptions.urlFields, List.mem_cons, List.mem_singleton,
      List.not_mem_nil, or_false] at hf
    rcases hf with h | h | h | h | h | h | h | h | h <;> subst h <;>
      first
        | (simp only at hk; exact absurd hk (by decide))
        | simp [FieldValue.isZero, hz] at hnz

/-- Witness for C6: with only `Search` set, none of the other keys is emitted. -/
theorem queryString_omits_zero_fields_witness :
    lit "id" ∉ (queryPairs ⟨⟨0, 0⟩, 0, 0, [], none, none, some (lit "x"), none⟩).map Prod.fst ∧
    lit "labels" ∉
      (queryPairs ⟨⟨0, 0⟩, 0, 0, [], none, none, some (lit "x"), none⟩).map Prod.fst ∧
    queryString ⟨⟨0, 0⟩, 0, 0, [], none, none, some (lit "x"), none⟩ = lit "search=x" :=
  ⟨(queryString_omits_zero_fields ⟨⟨0, 0⟩, 0, 0, [], none, none, some (lit "x"), none⟩).2.2.1 rfl,
    (queryString_omits_zero_fields
      ⟨⟨0, 0⟩, 0, 0, [], none, none, some (lit "x"), none⟩).2.2.2.2.1 rfl,
    by decide⟩

/-- The serialization of the options value has exactly one pair with the key `labels` when
the list of labels is not empty. -/
theorem queryPairs_labels (o : ListGroupEpicsOptions) (hl : o.Labels ≠ []) :
    (queryPairs o).filter (fun kv => kv.1 == lit "labels") =
      [(lit "labels", joinWith (lit ",") o.Labels)] := by
  have hlab : encodeField ⟨lit "labels", true, true⟩ (.strings o.Labels) =
      [(lit "labels", joinWith (lit ",") o.Labels)] := by
    simp [encodeField, FieldValue.isZero, hl]
  simp only [queryPairs, ListGroupEpicsOptions.urlFields, List.flatMap_cons,
    List.flatMap_nil, List.filter_append, List.append_nil, hlab]
  rw [encodeField_filter_other _ _ _ (by decide), encodeField_filter_other _ _ _ (by decide),
    encodeField_filter_other _ _ _ (by decide), encodeField_filter_other _ _ _ (by decide),
    encodeField_filter_other _ _ _ (by decide), encodeField_filter_other _ _ _ (by decide),
    encodeField_filter_other _ _ _ (by decide), encodeField_filter_other _ _ _ (by decide)]
  simp

theorem joinWith_eq_intercalate (sep : GoString) (l : List GoString) :
    joinWith sep l = sep.intercalate l := by
  induction l with
  | nil => rfl
  | cons x rest ih =>
    cases rest with
    | nil => simp [joinWith, List.intercalate]
    | cons y rest2 =>
      rw [joinWith, ih]
      simp [List.intercalate, List.intersperse]

/-- Escaping a comma-joined list: every element is escaped and the commas become `%2C`. -/
theorem QueryEscape_joinWith_comma (l : List GoString) :
    QueryEscape (joinWith (lit ",") l) =
      (lit "%2C").intercalate (l.map (fun x => x.flatMap escapeByte)) := by
  rw [← joinWith_eq_intercalate, QueryEscape_eq_flatMap]
  induction l with
  | nil => rfl
  | cons x rest ih =>
    cases rest with
    | nil => simp [joinWith]
    | cons y rest2 =>
      have hc : (lit ",").flatMap escapeByte = lit "%2C" := by decide
      rw [joinWith, List.flatMap_append, List.flatMap_append, ih, hc]
      simp [joinWith]

set_option maxRecDepth 100000 in
theorem unreserved_ne_amp : ∀ c : Byte, isUnreserved c = true → c ≠ ascii '&' := by
  decide

theorem upperhex_ne_amp (n : Nat) (h : n < 16) : upperhex n ≠ ascii '&' := by
  interval_cases n <;> decide

theorem QueryEscape_no_amp (s : GoString) : ascii '&' ∉ QueryEscape s := by
  intro hmem
  rw [QueryEscape_eq_flatMap, List.mem_flatMap] at hmem
  obtain ⟨c, _, hx⟩ := hmem
  unfold escapeByte at hx
  split at hx
  · rename_i hu
    simp only [List.mem_singleton] at hx
    exact unreserved_ne_amp c hu hx.symm
  · split at hx
    · simp only [List.mem_singleton] at hx
      exact absurd hx (by decide)
    · simp only [List.mem_cons, List.mem_singleton, List.not_mem_nil, or_false] at hx
      rcases hx with h | h | h
      · exact absurd h (by decide)
      · exact upperhex_ne_amp _ (by omega) h.symm
      · exact upperhex_ne_amp _ (by omega) h.symm

theorem encodeSegments_no_amp (v : List (GoString × GoString)) :
    ∀ seg ∈ encodeSegments v, ascii '&' ∉ seg := by
  intro seg hseg hmem
  simp only [encodeSegments, List.mem_flatMap, List.mem_map] at hseg
  obtain ⟨k, _, kv, _, hkv⟩ := hseg
  subst hkv
  simp only [List.mem_append] at hmem
  rcases hmem with (h | h) | h
  · exact QueryEscape_no_amp _ h
  · exact absurd h (by decide)
  · exact QueryEscape_no_amp _ h

theorem filter_flatMap_of_not_mem {α β : Type} (p : β → Bool) (f : α → List β) (a : α)
    (keys : List α) (hother : ∀ k ∈ keys, k ≠ a → (f k).filter p = []) (ha : a ∉ keys) :
    (keys.flatMap f).filter p = [] := by
  induction keys with
  | nil => rfl
  | cons k rest ih =>
    have hk : k ≠ a := fun h => ha (h ▸ List.mem_cons_self _ _)
    rw [List.flatMap_cons, List.filter_append, hother k (List.mem_cons_self _ _) hk,
      ih (fun k1 h1 => hother k1 (List.mem_cons_of_mem _ h1))
        (fun h => ha (List.mem_cons_of_mem _ h))]
    rfl

theorem filter_flatMap_of_mem {α β : Type} (p : β → Bool) (f : α → List β) (a : α) (s : β)
    (keys : List α) (hnd : keys.Nodup)
    (hother : ∀ k ∈ keys, k ≠ a → (f k).filter p = []) (ha : a ∈ keys)
    (hfa : (f a).filter p = [s]) :
    (keys.flatMap f).filter p = [s] := by
  induction keys with
  | nil => simp at ha
  | cons k rest ih =>
    rw [List.nodup_cons] at hnd
    rw [List.flatMap_cons, List.filter_append]
    rcases List.mem_cons.mp ha with h | h
    · subst h
      rw [hfa, filter_flatMap_of_not_mem p f a rest
        (fun k1 h1 => hother k1 (List.mem_cons_of_mem _ h1)) hnd.1]
      rfl
    · have hk : k ≠ a := fun hka => hnd.1 (hka ▸ h)
      rw [hother k (List.mem_cons_self _ _) hk,
        ih hnd.2 (fun k1 h1 => hother k1 (List.mem_cons_of_mem _ h1)) h]
      rfl

theorem sortedKeys_nodup (v : List (GoString × GoString)) : (sortedKeys v).Nodup :=
  (List.perm_insertionSort _ _).nodup_iff.mpr (List.nodup_dedup _)

theorem mem_sortedKeys (v : List (GoString × GoString)) (k : GoString) :
    k ∈ sortedKeys v ↔ k ∈ v.map Prod.fst := by
  unfold sortedKeys
  rw [(List.perm_insertionSort _ _).mem_iff, List.mem_dedup]

/-- A segment whose escaped key does not begin with `l` is not a pair with the key
`labels`. -/
theorem not_isLabelsPair (k x : GoString)
    (hk : (QueryEscape k).head?.map (fun c => c != ascii 'l') = some true) :
    isLabelsPair (QueryEscape k ++ lit "=" ++ x) = false := by
  cases hq : QueryEscape k with
  | nil => rw [hq] at hk; simp at hk
  | cons c rest =>
    rw [hq] at hk
    simp only [List.head?_cons, Option.map_some', Option.some.injEq, bne_iff_ne, ne_eq] at hk
    have hl : lit "labels=" = ascii 'l' :: lit "abels=" := by decide
    simp only [isLabelsPair, hl, List.cons_append, List.isPrefixOf]
    simp [Ne.symm hk]

/-- The segments written for the options value: exactly one is a pair with the key `labels`,
and its value is the escaped comma-joined list. -/
theorem encodeSegments_labels (o : ListGroupEpicsOptions) (hl : o.Labels ≠ []) :
    (encodeSegments (queryPairs o)).filter isLabelsPair =
      [lit "labels=" ++ QueryEscape (joinWith (lit ",") o.Labels)] := by
  have hpair := queryPairs_labels o hl
  have hmem : lit "labels" ∈ sortedKeys (queryPairs o) := by
    rw [mem_sortedKeys]
    have : (lit "labels", joinWith (lit ",") o.Labels) ∈
        (queryPairs o).filter (fun kv => kv.1 == lit "labels") := by
      rw [hpair]; exact List.mem_singleton_self _
    exact List.mem_map.mpr ⟨_, List.mem_of_mem_filter this, rfl⟩
  unfold encodeSegments
  apply filter_flatMap_of_mem isLabelsPair _ (lit "labels") _ _ (sortedKeys_nodup _) _ hmem
  · rw [hpair]
    have hk : QueryEscape (lit "labels") ++ lit "=" = lit "labels=" := by decide
    simp only [List.map_cons, List.map_nil, hk, List.filter_cons, List.filter_nil]
    have hp : isLabelsPair (lit "labels=" ++ QueryEscape (joinWith (lit ",") o.Labels)) = true := by
      simp [isLabelsPair]
    simp [hp]
  · intro k hk hne
    rw [mem_sortedKeys] at hk
    obtain ⟨f, hf, hkey, _⟩ := queryPairs_key_origin o k hk
    rw [List.filter_eq_nil_iff]
    intro seg hseg
    simp only [List.mem_map] at hseg
    obtain ⟨kv, _, hkv⟩ := hseg
    subst hkv
    simp only [Bool.not_eq_true]
    apply not_isLabelsPair
    simp only [ListGroupEpicsOptions.urlFields, List.mem_cons, List.mem_singleton,
      List.not_mem_nil, or_false] at hf
    rcases hf with h | h | h | h | h | h | h | h | h <;> subst h <;> simp only at hkey <;>
      subst hkey <;>
      first
        | exact absurd rfl hne
        | decide

/-- C7 (as amended): for a non-empty list of labels, `ListGroupEpics` hands the options value
unchanged to the request builder, and the query string sent for it, split at `&`, has exactly
one pair with the key `labels`; the value of that pair is the escaped labels in their order,
separated by `%2C`, the escaped comma.  For the labels `a`, `b` the query string contains the
text `labels=a%2Cb`. -/
theorem RawQuery_labels_comma_joined {Req Resp OptFn E World ISOTime Time : Type}
    (client : Client Req Resp OptFn E World (Option (Epic ISOTime Time))) (w : World)
    (pid : ID) (o : ListGroupEpicsOptions) (options : List OptFn) (group : GoString)
    (hp : (parseID pid : Except (Error E) GoString) = .ok group)
    (hl : o.Labels ≠ []) :
    (ListGroupEpics client w pid (some o) options).calls.head? =
      some (.NewRequest (lit "GET") (lit "groups/" ++ QueryEscape group ++ lit "/epics")
        (some o) options) ∧
    ((RawQuery o).splitOn (ascii '&')).filter isLabelsPair =
      [lit "labels=" ++
        (lit "%2C").intercalate (o.Labels.map (fun x => x.flatMap escapeByte))] ∧
    (lit "labels=" ++ (lit "%2C").intercalate (o.Labels.map (fun x => x.flatMap escapeByte)))
      <:+: RawQuery o ∧
    (o.Labels = [lit "a", lit "b"] → lit "labels=a%2Cb" <:+: RawQuery o) := by
  have hseg := encodeSegments_labels o hl
  rw [QueryEscape_joinWith_comma] at hseg
  have hmem : (lit "labels=" ++
      (lit "%2C").intercalate (o.Labels.map (fun x => x.flatMap escapeByte))) ∈
      encodeSegments (queryPairs o) := by
    have : (lit "labels=" ++
        (lit "%2C").intercalate (o.Labels.map (fun x => x.flatMap escapeByte))) ∈
        (encodeSegments (queryPairs o)).filter isLabelsPair := by
      rw [hseg]; exact List.mem_singleton_self _
    exact List.mem_of_mem_filter this
  have hne : encodeSegments (queryPairs o) ≠ [] := List.ne_nil_of_mem hmem
  have hsplit : (RawQuery o).splitOn (ascii '&') = encodeSegments (queryPairs o) := by
    have hamp : lit "&" = [ascii '&'] := by decide
    rw [RawQuery, Encode, joinWith_eq_intercalate, hamp]
    apply List.splitOn_intercalate
    · exact encodeSegments_no_amp _
    · exact hne
  have hinfix : (lit "labels=" ++
      (lit "%2C").intercalate (o.Labels.map (fun x => x.flatMap escapeByte))) <:+: RawQuery o :=
    mem_infix_joinWith _ _ _ hmem
  refine ⟨ListGroupEpics_first_call client w pid (some o) options group hp, ?_, hinfix, ?_⟩
  · rw [hsplit, hseg]
  · intro hab
    rw [hab] at hinfix
    exact hinfix

/-- Witness for C7 (as amended): labels `a`, `b` together with an author filter. -/
theorem RawQuery_labels_comma_joined_witness :
    RawQuery ⟨⟨0, 0⟩, 0, 7, [lit "a", lit "b"], none, none, none, none⟩ =
      lit "author_id=7&labels=a%2Cb" ∧
    ((RawQuery ⟨⟨0, 0⟩, 0, 7, [lit "a", lit "b"], none, none, none, none⟩).splitOn
      (ascii '&')).filter isLabelsPair = [lit "labels=a%2Cb"] ∧
    lit "labels=a%2Cb" <:+: RawQuery ⟨⟨0, 0⟩, 0, 7, [lit "a", lit "b"], none, none, none, none⟩ :=
  ⟨by decide,
    (RawQuery_labels_comma_joined
      (stubClient none none none none : Client Unit Nat Unit Nat Unit (Option (Epic Unit Unit)))
      () (.int 1) ⟨⟨0, 0⟩, 0, 7, [lit "a", lit "b"], none, none, none, none⟩ [] (lit "1") rfl
      (by decide)).2.1,
    (RawQuery_labels_comma_joined
      (stubClient none none none none : Client Unit Nat Unit Nat Unit (Option (Epic Unit Unit)))
      () (.int 1) ⟨⟨0, 0⟩, 0, 7, [lit "a", lit "b"], none, none, none, none⟩ [] (lit "1") rfl
      (by decide)).2.2.2 rfl⟩

/-- C7 (as stated) fails: for the labels `a`, `b` the query string sent is `labels=a%2Cb`; the
comma is escaped and the text `labels=a,b` does not occur in it. -/
theorem RawQuery_labels_comma_escaped :
    RawQuery ⟨⟨0, 0⟩, 0, 0, [lit "a", lit "b"], none, none, none, none⟩ = lit "labels=a%2Cb" ∧
    ¬ (lit "labels=a,b" <:+:
      RawQuery ⟨⟨0, 0⟩, 0, 0, [lit "a", lit "b"], none, none, none, none⟩) := by
  decide

/-- With every field unset the query string sent is empty as well. -/
theorem RawQuery_unset : RawQuery ⟨⟨0, 0⟩, 0, 0, [], none, none, none, none⟩ = [] := by
  decide

/-! ### JSON decoding of `Epic` -/

/-- The fields `encoding/json` uses for `Epic`: `EndDate` and `DueDate`, both tagged
`end_date`, are dropped. -/
theorem Epic.jsonFields_eq : Epic.jsonFields =
    [ (.ID, lit "id"), (.IID, lit "iid"), (.GroupID, lit "group_id"), (.Title, lit "string"),
      (.Description, lit "description"), (.Author, lit "author"),
      (.StartDate, lit "start_date"), (.StartDateIsFixed, lit "start_date_is_fixed"),
      (.StartDateFixed, lit "start_date_fixed"),
      (.StartDateFromMilestone, lit "start_date_from_milestone"),
      (.DueDateIsFixed, lit "end_date_is_fixed"), (.DueDateFixed, lit "end_date_fixed"),
      (.DueDateFromMilestone, lit "end_date_from_milestone"),
      (.UpdatedAt, lit "updated_at"), (.CreatedAt, lit "created_at"),
      (.Labels, lit "labels") ] := by
  decide

theorem findField_mem (fold : GoString → GoString → Bool) (fs : List (EpicField × GoString))
    (k : GoString) (f : EpicField) (h : findField fold fs k = some f) :
    ∃ t, (f, t) ∈ fs ∧ (t = k ∨ fold t k = true) := by
  unfold findField at h
  split at h
  · rename_i g hg
    simp only [Option.some.injEq] at h
    subst h
    have hm := List.mem_of_find?_eq_some hg
    have hp := List.find?_some hg
    exact ⟨g.2, hm, Or.inl (by simpa using hp)⟩
  · cases hf : fs.find? (fun f => fold f.2 k) with
    | none => rw [hf] at h; simp at h
    | some g =>
      rw [hf] at h
      simp only [Option.map_some', Option.some.injEq] at h
      subst h
      have hp := List.find?_some hf
      exact ⟨g.2, List.mem_of_find?_eq_some hf, Or.inr (by simpa using hp)⟩

theorem Epic.jsonFields_tag (f : EpicField) (t : GoString) (h : (f, t) ∈ Epic.jsonFields) :
    t = Epic.tagOf f ∧ f ≠ .EndDate ∧ f ≠ .DueDate := by
  rw [Epic.jsonFields_eq] at h
  simp only [List.mem_cons, List.mem_singleton, List.not_mem_nil, or_false, Prod.mk.injEq] at h
  rcases h with h | h | h | h | h | h | h | h | h | h | h | h | h | h | h | h <;>
    (obtain ⟨hf, ht⟩ := h; subst hf; subst ht; decide)

theorem findField_exact (fold : GoString → GoString → Bool) (f : EpicField) (t : GoString)
    (h : (f, t) ∈ Epic.jsonFields) : findField fold Epic.jsonFields t = some f := by
  rw [Epic.jsonFields_eq] at h ⊢
  simp only [List.mem_cons, List.mem_singleton, List.not_mem_nil, or_false, Prod.mk.injEq] at h
  rcases h with h | h | h | h | h | h | h | h | h | h | h | h | h | h | h | h <;>
    (obtain ⟨hf, ht⟩ := h; subst hf; subst ht; rfl)

theorem Epic.store_present_other {ISOTime Time : Type} (c : Codec ISOTime Time)
    (e : Epic ISOTime Time) (f g : EpicField) (v : JSON) (hne : f ≠ g) :
    (e.store c f v).1.present g = e.present g := by
  cases f <;> cases g <;> first | rfl | exact absurd rfl hne

theorem Epic.store_present_null {ISOTime Time : Type} (c : Codec ISOTime Time)
    (e : Epic ISOTime Time) (g : EpicField) (v : JSON) (hv : v.isNull = true) :
    (e.store c g v).1.present g = false := by
  cases g <;> simp [Epic.store, Epic.present, storePtr, hv]

/-- A field that is absent stays absent while every member stored in it is `null`. -/
theorem decodeMembers_absent {ISOTime Time : Type} (c : Codec ISOTime Time)
    (fold : GoString → GoString → Bool) (g : EpicField) (ms : List (GoString × JSON)) :
    ∀ (e : Epic ISOTime Time) (saved : Option JSONError), e.present g = false →
      (∀ k v, (k, v) ∈ ms → findField fold Epic.jsonFields k = some g → v.isNull = true) →
      (decodeMembers c fold ms e saved).1.present g = false := by
  induction ms with
  | nil => intro e saved he _; exact he
  | cons m rest ih =>
    intro e saved he hnull
    obtain ⟨k, v⟩ := m
    have hrest : ∀ k1 v1, (k1, v1) ∈ rest →
        findField fold Epic.jsonFields k1 = some g → v1.isNull = true :=
      fun k1 v1 hm => hnull k1 v1 (List.mem_cons_of_mem _ hm)
    rw [decodeMembers]
    cases hf : findField fold Epic.jsonFields k with
    | none => exact ih e saved he hrest
    | some f =>
      simp only []
      have hstep : (e.store c f v).1.present g = false := by
        by_cases hfg : f = g
        · subst hfg
          exact Epic.store_present_null c e f v (hnull k v (List.mem_cons_self _ _) hf)
        · rw [Epic.store_present_other c e f g v hfg]; exact he
      rcases hs : e.store c f v with ⟨e1, st⟩
      rw [hs] at hstep
      cases st with
      | ok => exact ih e1 saved hstep hrest
      | saved err => exact ih e1 _ hstep hrest
      | abort err => exact hstep

theorem encodeFields_mem {ISOTime Time : Type} (c : Codec ISOTime Time) (e : Epic ISOTime Time)
    (fs : List (EpicField × GoString)) :
    ∀ out, encodeFields c e fs = .ok out →
      ∀ k v, (k, v) ∈ out → ∃ f, (f, k) ∈ fs ∧ e.fieldJSON c f = .ok v := by
  induction fs with
  | nil =>
    intro out h k v hm
    simp only [encodeFields, Except.ok.injEq] at h
    subst h
    simp at hm
  | cons f rest ih =>
    intro out h k v hm
    unfold encodeFields at h
    cases hj : e.fieldJSON c f.1 with
    | error err => rw [hj] at h; simp at h
    | ok j =>
      rw [hj] at h
      cases hr : encodeFields c e rest with
      | error err => rw [hr] at h; simp at h
      | ok ms =>
        rw [hr] at h
        simp only [Except.ok.injEq] at h
        subst h
        rcases List.mem_cons.mp hm with h1 | h1
        · simp only [Prod.mk.injEq] at h1
          obtain ⟨hk, hv⟩ := h1
          subst hk; subst hv
          exact ⟨f.1, List.mem_cons_self _ _, hj⟩
        · obtain ⟨f1, hf1, hj1⟩ := ih ms hr k v h1
          exact ⟨f1, List.mem_cons_of_mem _ hf1, hj1⟩

theorem encodeFields_total {ISOTime Time : Type} (c : Codec ISOTime Time) (e : Epic ISOTime Time)
    (hi : ∀ t, ∃ j, c.marshalISOTime t = .ok j) (ht : ∀ t, ∃ j, c.marshalTime t = .ok j)
    (fs : List (EpicField × GoString)) : ∃ out, encodeFields c e fs = .ok out := by
  have hfield : ∀ f, ∃ j, e.fieldJSON c f = .ok j := by
    have hpi : ∀ p : Option ISOTime, ∃ j, encodePtr c.marshalISOTime p = .ok j := by
      intro p; cases p with
      | none => exact ⟨_, rfl⟩
      | some t => exact hi t
    have hpt : ∀ p : Option Time, ∃ j, encodePtr c.marshalTime p = .ok j := by
      intro p; cases p with
      | none => exact ⟨_, rfl⟩
      | some t => exact ht t
    intro f
    cases f <;> first | exact ⟨_, rfl⟩ | exact hpi _ | exact hpt _
  induction fs with
  | nil => exact ⟨[], rfl⟩
  | cons f rest ih =>
    obtain ⟨j, hj⟩ := hfield f.1
    obtain ⟨ms, hms⟩ := ih
    exact ⟨(f.2, j) :: ms, by simp only [encodeFields, hj, hms]⟩

theorem Epic.fieldJSON_absent {ISOTime Time : Type} (c : Codec ISOTime Time)
    (e : Epic ISOTime Time) (g : EpicField) (hg : g ∈ dateFields) (he : e.present g = false)
    (v : JSON) (hv : e.fieldJSON c g = .ok v) : v.isNull = true := by
  simp only [dateFields, List.mem_cons, List.mem_singleton, List.not_mem_nil, or_false] at hg
  rcases hg with h | h | h | h | h <;> subst h <;>
    simp [Epic.present] at he <;>
    simp [Epic.fieldJSON, he, encodePtr] at hv <;>
    (subst hv; rfl)

theorem nullAt_spec (fold : GoString → GoString → Bool) (tag : GoString)
    (ms : List (GoString × JSON)) (h : nullAt fold tag ms = true) :
    ∀ k v, (k, v) ∈ ms → (tag = k ∨ fold tag k = true) → v.isNull = true := by
  intro k v hm hk
  simp only [nullAt, Bool.and_eq_true, List.all_eq_true] at h
  have := h.2 (k, v) hm
  rcases hk with hk | hk
  · subst hk; simpa using this
  · simpa [hk] using this

theorem Epic.jsonFields_tagOf_date (g f : EpicField) (hg : g ∈ dateFields)
    (h : (f, Epic.tagOf g) ∈ Epic.jsonFields) : f = g := by
  obtain ⟨ht, _, _⟩ := Epic.jsonFields_tag f _ h
  simp only [dateFields, List.mem_cons, List.mem_singleton, List.not_mem_nil, or_false] at hg
  rw [Epic.jsonFields_eq] at h
  simp only [List.mem_cons, List.mem_singleton, List.not_mem_nil, or_false, Prod.mk.injEq] at h
  rcases hg with hg | hg | hg | hg | hg <;> subst hg <;>
    rcases h with h | h | h | h | h | h | h | h | h | h | h | h | h | h | h | h <;>
    first
      | exact h.1
      | exact absurd h.2 (by decide)

theorem Epic.zero_present {ISOTime Time : Type} (g : EpicField) :
    (Epic.zero : Epic ISOTime Time).present g = false := by
  cases g <;> rfl

/-- The record written by `encodeEpic` for an `Epic` in which a date field is absent stores
only `null` in that field when decoded. -/
theorem encodeEpic_absent_members {ISOTime Time : Type} (c : Codec ISOTime Time)
    (fold : GoString → GoString → Bool) (e : Epic ISOTime Time) (g : EpicField)
    (hg : g ∈ dateFields) (he : e.present g = false) (out : List (GoString × JSON))
    (hout : encodeEpic c e = .ok out) :
    ∀ k v, (k, v) ∈ out → findField fold Epic.jsonFields k = some g → v.isNull = true := by
  intro k v hm hf
  obtain ⟨f, hfm, hj⟩ := encodeFields_mem c e Epic.jsonFields out hout k v hm
  have hfe := findField_exact fold f k hfm
  rw [hfe] at hf
  simp only [Option.some.injEq] at hf
  subst hf
  exact Epic.fieldJSON_absent c e f hg he v hj

/-- C8: for each optional date/time field of `Epic`, decoding a JSON record whose value for
the field's key is `null` leaves the field absent (a nil pointer); in every re-encoding of
that `Epic` the key is either missing or `null`, and decoding the re-encoded record leaves
the field absent again; the re-encoding exists whenever the `MarshalJSON` methods of the
dates succeed. -/
theorem decodeEpic_null_date_roundtrip {ISOTime Time : Type} (c : Codec ISOTime Time)
    (fold : GoString → GoString → Bool) (ms : List (GoString × JSON)) (g : EpicField)
    (hg : g ∈ dateFields) (hnull : nullAt fold (Epic.tagOf g) ms = true) :
    (decodeEpic c fold ms).1.present g = false ∧
    (∀ out, encodeEpic c (decodeEpic c fold ms).1 = .ok out →
      (∀ v, (Epic.tagOf g, v) ∈ out → v.isNull = true) ∧
      (decodeEpic c fold out).1.present g = false) ∧
    ((∀ t, ∃ j, c.marshalISOTime t = .ok j) → (∀ t, ∃ j, c.marshalTime t = .ok j) →
      ∃ out, encodeEpic c (decodeEpic c fold ms).1 = .ok out) := by
  have habs : (decodeEpic c fold ms).1.present g = false := by
    apply decodeMembers_absent c fold g ms Epic.zero none (Epic.zero_present g)
    intro k v hm hf
    obtain ⟨t, htm, hk⟩ := findField_mem fold Epic.jsonFields k g hf
    obtain ⟨ht, _, _⟩ := Epic.jsonFields_tag g t htm
    subst ht
    exact nullAt_spec fold _ ms hnull k v hm hk
  refine ⟨habs, ?_, ?_⟩
  · intro out hout
    constructor
    · intro v hm
      obtain ⟨f, hfm, hj⟩ := encodeFields_mem c _ Epic.jsonFields out hout _ v hm
      have hfg := Epic.jsonFields_tagOf_date g f hg hfm
      subst hfg
      exact Epic.fieldJSON_absent c _ f hg habs v hj
    · exact decodeMembers_absent c fold g out Epic.zero none (Epic.zero_present g)
        (encodeEpic_absent_members c fold _ g hg habs out hout)
  · intro hi ht
    exact encodeFields_total c _ hi ht Epic.jsonFields

/-- Witness for C8: the example record, whose `start_date` is `null`, decoded with the example
instance. -/
theorem decodeEpic_null_date_roundtrip_witness :
    nullAt asciiFold (Epic.tagOf .StartDate) exampleRecord = true ∧
    ((decodeEpic exampleCodec asciiFold exampleRecord).1.present .StartDate = false ∧
    (∀ out, encodeEpic exampleCodec (decodeEpic exampleCodec asciiFold exampleRecord).1 = .ok out →
      (∀ v, (Epic.tagOf .StartDate, v) ∈ out → v.isNull = true) ∧
      (decodeEpic exampleCodec asciiFold out).1.present .StartDate = false) ∧
    ((∀ t, ∃ j, exampleCodec.marshalISOTime t = .ok j) →
      (∀ t, ∃ j, exampleCodec.marshalTime t = .ok j) →
      ∃ out, encodeEpic exampleCodec (decodeEpic exampleCodec asciiFold exampleRecord).1 =
        .ok out)) :=
  ⟨by decide,
    decodeEpic_null_date_roundtrip exampleCodec asciiFold exampleRecord .StartDate (by decide)
      (by decide)⟩

/-- By contrast with `end_date`, a record whose only member is a non-null `start_date` always
decodes to an `Epic` whose `StartDate` is present. -/
theorem decodeEpic_start_date_present {ISOTime Time : Type} (c : Codec ISOTime Time)
    (fold : GoString → GoString → Bool) (v : JSON) (hv : v.isNull = false) :
    (decodeEpic c fold [(lit "start_date", v)]).1.StartDate.isSome = true := by
  have hf : findField fold Epic.jsonFields (lit "start_date") = some .StartDate :=
    findField_exact fold .StartDate (lit "start_date") (by decide)
  simp only [decodeEpic, decodeMembers, hf, Epic.store, storePtr, hv]
  rcases hu : c.unmarshalISOTime ((Epic.zero : Epic ISOTime Time).StartDate.getD c.zeroISOTime) v
    with ⟨t, _ | err⟩ <;> simp [hu]

/-- C9 (failing input): whatever the record, decoding never sets `EndDate` or `DueDate`; in
particular the record whose only member is a non-null `end_date` decodes, with the example
instance, to the zero `Epic` without an error. -/
theorem decodeEpic_end_date_never_present {ISOTime Time : Type} (c : Codec ISOTime Time)
    (fold : GoString → GoString → Bool) (ms : List (GoString × JSON)) :
    (decodeEpic c fold ms).1.EndDate = none ∧ (decodeEpic c fold ms).1.DueDate = none ∧
    decodeEpic exampleCodec asciiFold [(lit "end_date", .string (lit "2019-05-01"))] =
      (Epic.zero, none) := by
  have hnever : ∀ g : EpicField, g = .EndDate ∨ g = .DueDate →
      (decodeEpic c fold ms).1.present g = false := by
    intro g hg
    apply decodeMembers_absent c fold g ms Epic.zero none (Epic.zero_present g)
    intro k v _ hf
    obtain ⟨t, htm, _⟩ := findField_mem fold Epic.jsonFields k g hf
    obtain ⟨_, h1, h2⟩ := Epic.jsonFields_tag g t htm
    rcases hg with hg | hg
    · exact absurd hg h1
    · exact absurd hg h2
  have h1 := hnever .EndDate (Or.inl rfl)
  have h2 := hnever .DueDate (Or.inr rfl)
  simp [Epic.present] at h1 h2
  exact ⟨h1, h2, by decide⟩

end Gitlab
